import Mathlib

/-!
Verification development for the cinema-listings validation and repair
script (`validate_cinema_data.py`).  The script works on a parsed JSON
document; we shallowly embed JSON values, Python dicts (as ordered
association lists with unique keys, matching Python dict semantics for
`get` and item assignment), and the two core functions
`validate_cinema_data` and `auto_fix_data`.
-/

/-- Shallow embedding of a JSON value as produced by `json.load`. -/
inductive JVal where
  | s (x : String) : JVal
  | n (x : Nat) : JVal
  | arr (xs : List JVal) : JVal
  | obj (fields : List (String × JVal)) : JVal

instance : Inhabited JVal := ⟨JVal.n 0⟩

/-- A Python dict, as an ordered association list (insertion order, unique keys). -/
abbrev Dict := List (String × JVal)

/-- Lookup in an association list: `d.get(k)` returning `None` when absent. -/
def alget {α : Type} : List (String × α) → String → Option α
  | [], _ => none
  | (k', v) :: rest, k => if k' = k then some v else alget rest k

/-- Item assignment `d[k] = v`: replaces the value in place when the key
exists (keeping its position, as Python dicts do), else appends at the end. -/
def alset {α : Type} : List (String × α) → String → α → List (String × α)
  | [], k, v => [(k, v)]
  | (k', v') :: rest, k, v => if k' = k then (k, v) :: rest else (k', v') :: alset rest k v

def dget (d : Dict) (k : String) : Option JVal := alget d k

def dset (d : Dict) (k : String) (v : JVal) : Dict := alset d k v

/-- `d.get(k, dflt)` where the expected value is a string (the data model
has string fields `name`, `day`, `title`); a missing field yields the default. -/
def getStr (d : Dict) (k : String) (dflt : String) : String :=
  match alget d k with
  | some (JVal.s x) => x
  | _ => dflt

def asStr : JVal → Option String
  | JVal.s x => some x
  | _ => none

def asObj : JVal → Dict
  | JVal.obj fs => fs
  | _ => []

/-- `d.get(k, [])` for a list-valued field. -/
def getArr (d : Dict) (k : String) : List JVal :=
  match alget d k with
  | some (JVal.arr xs) => xs
  | _ => []

/-- `film.get('showtimes', [])`: the showtime strings of a film. -/
def getShowtimes (film : Dict) : List String := (getArr film "showtimes").filterMap asStr

/-- Test whether `need` is a prefix of the character list. -/
def listPrefixB : List Char → List Char → Bool
  | [], _ => true
  | _ :: _, [] => false
  | a :: as, b :: bs => a == b && listPrefixB as bs

def hasSub : List Char → List Char → Bool
  | need, [] => listPrefixB need []
  | need, c :: cs => listPrefixB need (c :: cs) || hasSub need cs

/-- Python's substring test `need in hay`. -/
def strContains (hay need : String) : Bool := hasSub need.toList hay.toList

/-- Code-point comparison of strings, lexicographic, as Python compares strings. -/
def charListLeB : List Char → List Char → Bool
  | [], _ => true
  | _ :: _, [] => false
  | a :: as, b :: bs => if a = b then charListLeB as bs else decide (a < b)

def strLeB (a b : String) : Bool := charListLeB a.toList b.toList

def strLtB (a b : String) : Bool := strLeB a b && a != b

/-- Insertion into a list sorted by `strLeB`. -/
def insertStr (x : String) : List String → List String
  | [] => [x]
  | y :: ys => if strLeB x y then x :: y :: ys else y :: insertStr x ys

/-- Sorting by ascending lexical (code point) order, as Python's `sorted`. -/
def sortStr : List String → List String
  | [] => []
  | x :: xs => insertStr x (sortStr xs)

/-- Python's `sorted(list(set(l)))`: the distinct values in ascending order. -/
def dedupSort (l : List String) : List String := sortStr l.dedup

/-- Boolean test that a list of strings is strictly ascending in lexical order. -/
def ascB : List String → Bool
  | [] => true
  | [_] => true
  | a :: b :: rest => strLtB a b && ascB (b :: rest)

/-! ## The validator (`validate_cinema_data`) -/

/-- Hard issues collected into the `issues` list, one constructor per
`issues.append` site of the source. -/
inductive Issue where
  | tooMany (cinema day title : String) (count : Nat)
  | dupShowtimes (cinema day title : String)
  | dayCount (cinema day : String) (count : Nat)
  | dupTitles (cinema day : String) (dups : List (String × Nat))
  | globalTotal (total : Nat)
deriving DecidableEq

/-- Soft warnings collected into the `warnings` list. -/
inductive Warning where
  | noShowtimes (cinema day title : String)
  | dayCountHigh (cinema day : String) (count : Nat)
deriving DecidableEq

def dayOf (film : Dict) : String := getStr film "day" "unknown"

def titleOf (film : Dict) : String := getStr film "title" "Unknown"

/-- One step of `films_by_day[day].append(film)` on a `defaultdict(list)`:
appends to the entry with the given key, or appends a new key at the end. -/
def addToGroup : List (String × List Dict) → String → Dict → List (String × List Dict)
  | [], day, film => [(day, [film])]
  | (d, fs) :: rest, day, film =>
      if d = day then (d, fs ++ [film]) :: rest else (d, fs) :: addToGroup rest day film

/-- Grouping films by day, keys in first-appearance order (Python
`defaultdict` iteration order). -/
def groupByDay (films : List Dict) : List (String × List Dict) :=
  films.foldl (fun acc film => addToGroup acc (dayOf film) film) []

/-- Per-film checks of the day loop: rule 1 (more than 4 showtimes) and
rule 2 (duplicate showtimes) append to `issues`, rule 3 (no showtimes)
appends to `warnings`. -/
def filmChecks (cinema_name day : String) (film : Dict) : List Issue × List Warning :=
  let showtimes := getShowtimes film
  let title := titleOf film
  ((if 4 < showtimes.length then [Issue.tooMany cinema_name day title showtimes.length] else [])
    ++ (if showtimes.length ≠ showtimes.dedup.length then [Issue.dupShowtimes cinema_name day title] else []),
   if showtimes.length = 0 then [Warning.noShowtimes cinema_name day title] else [])

/-- One step of `title_counts[film.get('title', 'Unknown')] += 1`. -/
def bumpTitle : List (String × Nat) → String → List (String × Nat)
  | [], t => [(t, 1)]
  | (t', c) :: rest, t => if t' = t then (t', c + 1) :: rest else (t', c) :: bumpTitle rest t

/-- Title multiplicities of a day group, keys in first-appearance order. -/
def titleCounts (day_films : List Dict) : List (String × Nat) :=
  day_films.foldl (fun acc film => bumpTitle acc (titleOf film)) []

/-- All checks for one `(cinema, day)` group, in the order of the source:
per-film checks in film order, then the day film-count rule (`>30` hard,
else `>20` soft), then the duplicate-title rule. -/
def validateGroup (cinema_name day : String) (day_films : List Dict) : List Issue × List Warning :=
  let pf := day_films.foldl (fun acc film =>
      let r := filmChecks cinema_name day film
      (acc.1 ++ r.1, acc.2 ++ r.2)) ([], [])
  let r4 :=
    if 30 < day_films.length then
      (pf.1 ++ [Issue.dayCount cinema_name day day_films.length], pf.2)
    else if 20 < day_films.length then
      (pf.1, pf.2 ++ [Warning.dayCountHigh cinema_name day day_films.length])
    else pf
  let dups := (titleCounts day_films).filter (fun p => 1 < p.2)
  if dups = [] then r4 else (r4.1 ++ [Issue.dupTitles cinema_name day dups], r4.2)

/-- A cinema's entry in `stats`. -/
structure CStat where
  total_films : Nat
  days : Nat
  films_by_day : List (String × Nat)
deriving DecidableEq

def statOf (films : List Dict) : CStat :=
  { total_films := films.length,
    days := (groupByDay films).length,
    films_by_day := (groupByDay films).map (fun g => (g.1, g.2.length)) }

/-- The whole day loop of one cinema: issues and warnings accumulated over
the day groups, in group order. -/
def validateFilms (cinema_name : String) (films : List Dict) : List Issue × List Warning :=
  (groupByDay films).foldl (fun acc g =>
    let r := validateGroup cinema_name g.1 g.2
    (acc.1 ++ r.1, acc.2 ++ r.2)) ([], [])

def nameOfVal (cv : JVal) : String := getStr (asObj cv) "name" "Unknown"

def filmsOfVal (cv : JVal) : List Dict := (getArr (asObj cv) "films").map asObj

/-- Body of the cinema loop: accumulates issues, warnings and the
name-keyed `stats` entry (`stats[cinema_name] = {...}` overwrites). -/
def cinemaStep (acc : List Issue × List Warning × List (String × CStat)) (cv : JVal) :
    List Issue × List Warning × List (String × CStat) :=
  let name := nameOfVal cv
  let films := filmsOfVal cv
  let r := validateFilms name films
  (acc.1 ++ r.1, acc.2.1 ++ r.2, alset acc.2.2 name (statOf films))

/-- `sum(cinema['total_films'] for cinema in stats.values())`. -/
def statsTotal (stats : List (String × CStat)) : Nat :=
  (stats.map (fun p => p.2.total_films)).sum

/-- The validation report (the `timestamp` field, wall-clock output, is not modelled). -/
structure Report where
  valid : Bool
  stats : List (String × CStat)
  issues : List Issue
  warnings : List Warning
  total_issues : Nat
  total_warnings : Nat
  total_films : Nat
deriving DecidableEq

/-- The core of `validate_cinema_data` on parsed data. -/
def validate (data : Dict) : Report :=
  let acc := (getArr data "cinemas").foldl cinemaStep ([], [], [])
  let total_films := statsTotal acc.2.2
  let issues := if 500 < total_films then acc.1 ++ [Issue.globalTotal total_films] else acc.1
  { valid := issues.length == 0,
    stats := acc.2.2,
    issues := issues,
    warnings := acc.2.1,
    total_issues := issues.length,
    total_warnings := acc.2.1.length,
    total_films := total_films }

/-- Outcome of reading and parsing the data file. -/
inductive Source where
  | unreadable
  | unparseable
  | parsed (data : Dict)

/-- Result of `validate_cinema_data`: either the error dict
`{"valid": False, "error": ...}` (message abstracted) or a report. -/
inductive VResult where
  | failure
  | report (r : Report)
deriving DecidableEq

/-- The entry point `validate_cinema_data`: a read or parse failure of the
source is caught and produces the failure result, otherwise the data is
validated. -/
def validate_cinema_data : Source → VResult
  | Source.unreadable => VResult.failure
  | Source.unparseable => VResult.failure
  | Source.parsed data => VResult.report (validate data)

/-! ## The fixer (`auto_fix_data`) -/

/-- Entries of `fixes_applied`, one constructor per `fixes_applied.append`
site of the source. -/
inductive FixLog where
  | removedDups (title : String)
  | limited (title : String) (fromN toN : Nat)
  | removedFilm (title : String)
  | summary (name : String) (orig kept : Nat)
deriving DecidableEq

def FixLog.isSummary : FixLog → Bool
  | FixLog.summary _ _ _ => true
  | _ => false

/-- The per-cinema cap of fix 2: `3 if 'Regular' in cinema_name else 5`. -/
def max_showtimes (cinema_name : String) : Nat :=
  if strContains cinema_name "Regular" then 3 else 5

/-- The per-film pipeline of `auto_fix_data` (fixes 1 to 3): dedup-and-sort
when duplicates exist, truncate to the per-cinema cap, and drop the film
when no showtimes remain; a kept film gets its `showtimes` and
`showtime_count` fields updated in place. -/
def fixFilm (cinema_name : String) (film : Dict) : Option Dict × List FixLog :=
  let title := titleOf film
  let showtimes := getShowtimes film
  let unique_showtimes := dedupSort showtimes
  let r1 :=
    if unique_showtimes.length < showtimes.length then
      (unique_showtimes, [FixLog.removedDups title])
    else (showtimes, ([] : List FixLog))
  let r2 :=
    if max_showtimes cinema_name < r1.1.length then
      (r1.1.take (max_showtimes cinema_name),
       r1.2 ++ [FixLog.limited title r1.1.length (max_showtimes cinema_name)])
    else r1
  if r2.1.length = 0 then
    (none, r2.2 ++ [FixLog.removedFilm title])
  else
    (some (dset (dset film "showtimes" (JVal.arr (r2.1.map JVal.s)))
            "showtime_count" (JVal.n r2.1.length)),
     r2.2)

/-- The list of showtimes the pipeline leaves on a film. -/
def fixShowtimes (cinema_name : String) (showtimes : List String) : List String :=
  let unique_showtimes := dedupSort showtimes
  let sts1 := if unique_showtimes.length < showtimes.length then unique_showtimes else showtimes
  if max_showtimes cinema_name < sts1.length then sts1.take (max_showtimes cinema_name) else sts1

/-- A kept film after the in-place field updates of the pipeline. -/
def updFilm (cinema_name : String) (film : Dict) : Dict :=
  let sts := fixShowtimes cinema_name (getShowtimes film)
  dset (dset film "showtimes" (JVal.arr (sts.map JVal.s))) "showtime_count" (JVal.n sts.length)

/-- The film loop of one cinema: builds `fixed_films` and the fix log. -/
def fixFilms (cinema_name : String) (films : List Dict) : List Dict × List FixLog :=
  films.foldl (fun acc film =>
    let r := fixFilm cinema_name film
    match r.1 with
    | some f' => (acc.1 ++ [f'], acc.2 ++ r.2)
    | none => (acc.1, acc.2 ++ r.2)) ([], [])

/-- Processing of one cinema dict: fix every film, store the new film list
(`cinema['films'] = fixed_films`), and log the per-cinema summary line. -/
def fixCinema (cinema : Dict) : Dict × List FixLog :=
  let cinema_name := getStr cinema "name" "Unknown"
  let original_films := (getArr cinema "films").map asObj
  let r := fixFilms cinema_name original_films
  (dset cinema "films" (JVal.arr (r.1.map JVal.obj)),
   r.2 ++ [FixLog.summary cinema_name original_films.length r.1.length])

/-- Processing of one entry of the `cinemas` array (non-dict entries are
outside the data model and are left untouched). -/
def fixCinemaVal (cv : JVal) : JVal × List FixLog :=
  match cv with
  | JVal.obj c => let r := fixCinema c; (JVal.obj r.1, r.2)
  | v => (v, [])

/-- The in-memory transformation of `auto_fix_data` on parsed data:
the corrected data and the ordered `fixes_applied` log. -/
def fix_data (data : Dict) : Dict × List FixLog :=
  match dget data "cinemas" with
  | some (JVal.arr cs) =>
      let rs := cs.map fixCinemaVal
      (dset data "cinemas" (JVal.arr (rs.map Prod.fst)), (rs.map Prod.snd).flatten)
  | _ => (data, [])

/-- Outcome of a run of `auto_fix_data`: an uncaught exception, the
`False` return, or the `True` return together with the written data and log. -/
inductive FixOutcome where
  | crash
  | failed
  | fixed (data : Dict) (log : List FixLog)

/-- The entry point `auto_fix_data`: when backup is enabled, `shutil.copy`
runs before the guarded read and raises on an unreadable source; the
guarded `json.load` turns read and parse failures into the `False` return. -/
def auto_fix_data (src : Source) (backup : Bool) : FixOutcome :=
  match backup, src with
  | true, Source.unreadable => FixOutcome.crash
  | false, Source.unreadable => FixOutcome.failed
  | _, Source.unparseable => FixOutcome.failed
  | _, Source.parsed data => FixOutcome.fixed (fix_data data).1 (fix_data data).2

/-! ## Specification-side formulations

These definitions follow the words of the specification (report ordering as
cinema input order, day first-appearance order and rule order; global total
from the name-keyed stats), to be compared with the accumulator-style
embedding above. -/

/-- The distinct values of a list in first-appearance order. -/
def firstKeys (l : List String) : List String :=
  l.foldl (fun acc d => if d ∈ acc then acc else acc ++ [d]) []

/-- Day groups as the spec describes them: day keys in first-appearance
order, each paired with the films of that day in film order. -/
def groupsSpec (films : List Dict) : List (String × List Dict) :=
  (firstKeys (films.map dayOf)).map (fun day => (day, films.filter (fun f => dayOf f == day)))

/-- Hard issues of one group in rule order: rules 1 and 2 interleaved per
film in film order, then the day film-count issue, then the duplicate-title
issue. -/
def groupIssuesSpec (name day : String) (dfs : List Dict) : List Issue :=
  (dfs.map (fun f => (filmChecks name day f).1)).flatten
    ++ (if 30 < dfs.length then [Issue.dayCount name day dfs.length] else [])
    ++ (if (titleCounts dfs).filter (fun p => 1 < p.2) = [] then []
        else [Issue.dupTitles name day ((titleCounts dfs).filter (fun p => 1 < p.2))])

/-- Warnings of one group: rule 3 per film in film order, then the day
film-count warning (only when the hard threshold did not fire). -/
def groupWarningsSpec (name day : String) (dfs : List Dict) : List Warning :=
  (dfs.map (fun f => (filmChecks name day f).2)).flatten
    ++ (if 30 < dfs.length then []
        else if 20 < dfs.length then [Warning.dayCountHigh name day dfs.length] else [])

def cinemaIssuesSpec (name : String) (films : List Dict) : List Issue :=
  ((groupsSpec films).map (fun g => groupIssuesSpec name g.1 g.2)).flatten

def cinemaWarningsSpec (name : String) (films : List Dict) : List Warning :=
  ((groupsSpec films).map (fun g => groupWarningsSpec name g.1 g.2)).flatten

/-- The name-keyed `stats` dict after the cinema loop. -/
def statsFold (data : Dict) : List (String × CStat) :=
  (getArr data "cinemas").foldl
    (fun s cv => alset s (nameOfVal cv) (statOf (filmsOfVal cv))) []

/-- Issues in spec order: cinema input order, then day first-appearance
order, then rule order, with the single global-ceiling issue last. -/
def issuesSpec (data : Dict) : List Issue :=
  ((getArr data "cinemas").map (fun cv => cinemaIssuesSpec (nameOfVal cv) (filmsOfVal cv))).flatten
    ++ (if 500 < statsTotal (statsFold data)
        then [Issue.globalTotal (statsTotal (statsFold data))] else [])

/-- Warnings in spec order (no global part). -/
def warningsSpec (data : Dict) : List Warning :=
  ((getArr data "cinemas").map (fun cv => cinemaWarningsSpec (nameOfVal cv) (filmsOfVal cv))).flatten

/-- Sum of film-list lengths over all cinema records (duplicate names
counted independently) — what the spec calls the total film count. -/
def recordsTotal (data : Dict) : Nat :=
  ((getArr data "cinemas").map (fun cv => (filmsOfVal cv).length)).sum

def cinemaNames (data : Dict) : List String :=
  (getArr data "cinemas").map nameOfVal

def isGlobalB : Issue → Bool
  | Issue.globalTotal _ => true
  | _ => false

def isDayCountB : Issue → Bool
  | Issue.dayCount _ _ _ => true
  | _ => false

def isDayHighB : Warning → Bool
  | Warning.dayCountHigh _ _ _ => true
  | _ => false

/-! ## Leniency: documented defaults for missing fields -/

/-- Substitute a default value for a field only when the field is missing. -/
def fillIfMissing (d : Dict) (k : String) (v : JVal) : Dict :=
  match alget d k with
  | none => dset d k v
  | some _ => d

/-- A film with its documented defaults filled in for any missing
`title`, `day` or `showtimes` field. -/
def canonFilm (f : Dict) : Dict :=
  fillIfMissing
    (fillIfMissing (fillIfMissing f "title" (JVal.s "Unknown")) "day" (JVal.s "unknown"))
    "showtimes" (JVal.arr [])

/-! ## Concrete inputs used as witnesses and counterexamples -/

/-- A film with four distinct, already sorted showtimes. -/
def regFilm : Dict :=
  [("title", JVal.s "F"),
   ("showtimes", JVal.arr [JVal.s "10:00", JVal.s "12:00", JVal.s "14:00", JVal.s "16:00"])]

/-- A film whose two showtimes are distinct but out of order. -/
def unsortedFilm : Dict :=
  [("title", JVal.s "T"), ("showtimes", JVal.arr [JVal.s "b", JVal.s "a"])]

/-- A film with duplicated showtimes. -/
def dupFilm : Dict :=
  [("title", JVal.s "D"),
   ("showtimes", JVal.arr [JVal.s "19:00", JVal.s "19:00", JVal.s "21:00"])]

/-- A one-cinema dataset around `unsortedFilm`. -/
def c2Data : Dict :=
  [("cinemas", JVal.arr [JVal.obj [("name", JVal.s "C"), ("films", JVal.arr [JVal.obj unsortedFilm])]])]

/-- The single film kept by the fixer on `c2Data`. -/
def c2OutFilm : Dict :=
  asObj ((getArr (asObj ((getArr (fix_data c2Data).1 "cinemas").headI)) "films").headI)

/-- A cinema record named "A" holding 251 films. -/
def c4Cinema : JVal :=
  JVal.obj [("name", JVal.s "A"), ("films", JVal.arr (List.replicate 251 (JVal.obj [])))]

/-- A dataset with two cinema records of the same name, 502 films in total. -/
def c4Data : Dict := [("cinemas", JVal.arr [c4Cinema, c4Cinema])]

/-- A small dataset with two distinct cinema names and one film each. -/
def smallData : Dict :=
  [("cinemas", JVal.arr
    [JVal.obj [("name", JVal.s "A"), ("films", JVal.arr [JVal.obj regFilm])],
     JVal.obj [("name", JVal.s "B"), ("films", JVal.arr [JVal.obj dupFilm])]])]

/-! ## Association-list lemmas -/

theorem alget_alset_self {α : Type} (d : List (String × α)) (k : String) (v : α) :
    alget (alset d k v) k = some v := by
  induction d with
  | nil => simp [alset, alget]
  | cons p rest ih =>
      obtain ⟨k', v'⟩ := p
      by_cases h : k' = k
      · simp [alset, h, alget]
      · simp [alset, h, alget, ih]

theorem alget_alset_ne {α : Type} (d : List (String × α)) {k k' : String} (v : α)
    (h : k' ≠ k) : alget (alset d k v) k' = alget d k' := by
  induction d with
  | nil => simp [alset, alget, Ne.symm h]
  | cons p rest ih =>
      obtain ⟨k'', v''⟩ := p
      by_cases hk : k'' = k
      · subst hk
        simp [alset, alget, Ne.symm h]
      · simp [alset, hk, alget, ih]

theorem alset_eq_of_alget {α : Type} {d : List (String × α)} {k : String} {v : α}
    (h : alget d k = some v) : alset d k v = d := by
  induction d with
  | nil => simp [alget] at h
  | cons p rest ih =>
      obtain ⟨k', v'⟩ := p
      by_cases hk : k' = k
      · subst hk
        simp [alget] at h
        simp [alset, h]
      · simp [alget, hk] at h
        simp [alset, hk, ih h]

/-! ## Sorting lemmas -/

theorem charListLeB_total : ∀ as bs : List Char, charListLeB as bs = true ∨ charListLeB bs as = true := by
  intro as
  induction as with
  | nil => intro bs; exact Or.inl rfl
  | cons a as ih =>
      intro bs
      cases bs with
      | nil => exact Or.inr rfl
      | cons b bs' =>
          by_cases h : a = b
          · subst h
            rcases ih bs' with h1 | h1
            · left; simpa [charListLeB] using h1
            · right; simpa [charListLeB] using h1
          · rcases lt_or_gt_of_ne h with hlt | hlt
            · left
              show charListLeB (a :: as) (b :: bs') = true
              simp only [charListLeB]
              rw [if_neg h]
              simp only [decide_eq_true_eq]
              exact hlt
            · right
              show charListLeB (b :: bs') (a :: as) = true
              simp only [charListLeB]
              rw [if_neg (Ne.symm h)]
              simp only [decide_eq_true_eq]
              exact hlt

theorem strLeB_total (a b : String) : strLeB a b = true ∨ strLeB b a = true :=
  charListLeB_total a.toList b.toList

theorem insertStr_perm (x : String) (l : List String) : (insertStr x l).Perm (x :: l) := by
  induction l with
  | nil => exact List.Perm.refl _
  | cons y ys ih =>
      by_cases h : strLeB x y = true
      · simp only [insertStr]
        rw [if_pos h]
      · simp only [insertStr]
        rw [if_neg h]
        exact (ih.cons y).trans (List.Perm.swap x y ys)

theorem sortStr_perm (l : List String) : (sortStr l).Perm l := by
  induction l with
  | nil => exact List.Perm.refl _
  | cons x xs ih => exact (insertStr_perm x (sortStr xs)).trans (ih.cons x)

theorem sortStr_length (l : List String) : (sortStr l).length = l.length :=
  (sortStr_perm l).length_eq

theorem chain'_le_insertStr (x : String) (l : List String)
    (h : l.Chain' (fun a b => strLeB a b = true)) :
    (insertStr x l).Chain' (fun a b => strLeB a b = true) := by
  induction l with
  | nil => simp [insertStr]
  | cons y ys ih =>
      by_cases hxy : strLeB x y = true
      · simp only [insertStr]
        rw [if_pos hxy]
        exact List.chain'_cons.mpr ⟨hxy, h⟩
      · simp only [insertStr]
        rw [if_neg hxy]
        have htail := ih (h.tail)
        refine List.chain'_cons'.mpr ⟨?_, htail⟩
        intro w hw
        cases ys with
        | nil =>
            simp [insertStr] at hw
            subst hw
            rcases strLeB_total x y with h1 | h1
            · exact absurd h1 hxy
            · exact h1
        | cons z zs =>
            by_cases hxz : strLeB x z = true
            · simp [insertStr, hxz] at hw
              subst hw
              rcases strLeB_total x y with h1 | h1
              · exact absurd h1 hxy
              · exact h1
            · simp [insertStr, hxz] at hw
              subst hw
              exact (List.chain'_cons.mp h).1

theorem sortStr_chain' (l : List String) :
    (sortStr l).Chain' (fun a b => strLeB a b = true) := by
  induction l with
  | nil => simp [sortStr]
  | cons x xs ih => exact chain'_le_insertStr x _ ih

theorem ascB_of_chain'_nodup : ∀ l : List String,
    l.Chain' (fun a b => strLeB a b = true) → l.Nodup → ascB l = true := by
  intro l
  induction l with
  | nil => intro _ _; rfl
  | cons a tail ih =>
      intro hc hn
      cases tail with
      | nil => rfl
      | cons b rest =>
          have h1 : strLeB a b = true := (List.chain'_cons.mp hc).1
          have h2 : a ≠ b := by
            have ha := (List.nodup_cons.mp hn).1
            intro hab
            exact ha (hab ▸ List.mem_cons_self b rest)
          have h3 := ih (List.chain'_cons.mp hc).2 (List.nodup_cons.mp hn).2
          simp [ascB, strLtB, h1, h3, bne_iff_ne]
          exact h2

theorem ascB_dedupSort (l : List String) : ascB (dedupSort l) = true :=
  ascB_of_chain'_nodup _ (sortStr_chain' _) ((sortStr_perm l.dedup).symm.nodup (List.nodup_dedup l))

theorem ascB_take : ∀ (l : List String) (n : Nat), ascB l = true → ascB (l.take n) = true := by
  intro l
  induction l with
  | nil =>
      intro n _
      rw [List.take_nil]
      rfl
  | cons a tail ih =>
      intro n h
      cases n with
      | zero => rfl
      | succ m =>
          cases tail with
          | nil =>
              show ascB (a :: List.take m []) = true
              rw [List.take_nil]
              rfl
          | cons b rest =>
              cases m with
              | zero => rfl
              | succ k =>
                  have h1 : strLtB a b = true := by
                    have hh := h
                    simp [ascB, Bool.and_eq_true] at hh
                    exact hh.1
                  have h2 : ascB (b :: rest) = true := by
                    have hh := h
                    simp [ascB, Bool.and_eq_true] at hh
                    exact hh.2
                  show ascB (a :: List.take (k + 1) (b :: rest)) = true
                  rw [List.take_succ_cons]
                  have h4 : ascB (b :: List.take k rest) = true := by
                    have hh := ih (k + 1) h2
                    rwa [List.take_succ_cons] at hh
                  simp [ascB, h1, h4]

theorem dedupSort_length_le (l : List String) : (dedupSort l).length ≤ l.length := by
  rw [dedupSort, sortStr_length]
  exact (List.dedup_sublist l).length_le

theorem nodup_of_dedupSort_length {l : List String} (h : (dedupSort l).length = l.length) :
    l.Nodup := by
  rw [dedupSort, sortStr_length] at h
  have h2 := (List.dedup_sublist l).eq_of_length h
  rw [← h2]
  exact List.nodup_dedup l

theorem dedupSort_length_of_nodup {l : List String} (h : l.Nodup) :
    (dedupSort l).length = l.length := by
  rw [dedupSort, sortStr_length, List.dedup_eq_self.mpr h]

theorem dedupSort_nodup (l : List String) : (dedupSort l).Nodup :=
  (sortStr_perm l.dedup).symm.nodup (List.nodup_dedup l)

theorem filterMap_asStr_map (l : List String) : (l.map JVal.s).filterMap asStr = l := by
  induction l with
  | nil => rfl
  | cons x xs ih => simp [List.filterMap_cons, asStr, ih]

/-! ## Fixer lemmas -/

theorem map_asObj_map_obj (l : List Dict) : (l.map JVal.obj).map asObj = l := by
  induction l with
  | nil => rfl
  | cons x xs ih => simp [asObj, ih]

theorem getStr_ext {d d' : Dict} {k : String} (h : alget d k = alget d' k) (dflt : String) :
    getStr d k dflt = getStr d' k dflt := by
  simp only [getStr, h]

theorem dget_updFilm_showtimes (name : String) (f : Dict) :
    dget (updFilm name f) "showtimes"
      = some (JVal.arr ((fixShowtimes name (getShowtimes f)).map JVal.s)) := by
  simp only [updFilm, dget, dset]
  rw [alget_alset_ne _ _ (by decide)]
  exact alget_alset_self _ _ _

theorem getShowtimes_updFilm (name : String) (f : Dict) :
    getShowtimes (updFilm name f) = fixShowtimes name (getShowtimes f) := by
  have h1 := dget_updFilm_showtimes name f
  simp only [dget] at h1
  simp only [getShowtimes, getArr, h1]
  exact filterMap_asStr_map _

theorem dget_updFilm_count (name : String) (f : Dict) :
    dget (updFilm name f) "showtime_count"
      = some (JVal.n (fixShowtimes name (getShowtimes f)).length) := by
  simp only [updFilm, dget, dset]
  exact alget_alset_self _ _ _

theorem dget_updFilm_ne (name : String) (f : Dict) {k : String}
    (h1 : k ≠ "showtimes") (h2 : k ≠ "showtime_count") :
    dget (updFilm name f) k = dget f k := by
  simp only [updFilm, dget, dset]
  rw [alget_alset_ne _ _ h2, alget_alset_ne _ _ h1]

theorem fixFilm_fst (name : String) (f : Dict) :
    (fixFilm name f).1 =
      if (fixShowtimes name (getShowtimes f)).length = 0 then none
      else some (updFilm name f) := by
  simp only [fixFilm, fixShowtimes, updFilm]
  by_cases h1 : (dedupSort (getShowtimes f)).length < (getShowtimes f).length
  · simp only [h1, if_true]
    by_cases h2 : max_showtimes name < (dedupSort (getShowtimes f)).length
    · simp only [h2, if_true]
      by_cases h3 : (List.take (max_showtimes name) (dedupSort (getShowtimes f))).length = 0
      · simp only [h3, if_true]
      · simp only [h3, if_false]
    · simp only [h2, if_false]
      by_cases h3 : (dedupSort (getShowtimes f)).length = 0
      · simp only [h3, if_true]
      · simp only [h3, if_false]
  · simp only [h1, if_false]
    by_cases h2 : max_showtimes name < (getShowtimes f).length
    · simp only [h2, if_true]
      by_cases h3 : (List.take (max_showtimes name) (getShowtimes f)).length = 0
      · simp only [h3, if_true]
      · simp only [h3, if_false]
    · simp only [h2, if_false]
      by_cases h3 : (getShowtimes f).length = 0
      · simp only [h3, if_true]
      · simp only [h3, if_false]

theorem fixShowtimes_nodup (name : String) (sts : List String) :
    (fixShowtimes name sts).Nodup := by
  by_cases h1 : (dedupSort sts).length < sts.length
  · by_cases h2 : max_showtimes name < (dedupSort sts).length
    · simp only [fixShowtimes, h1, h2, if_pos]
      exact (List.take_sublist _ _).nodup (dedupSort_nodup sts)
    · simp only [fixShowtimes, if_pos h1, if_neg h2]
      exact dedupSort_nodup sts
  · have hn : sts.Nodup :=
      nodup_of_dedupSort_length (le_antisymm (dedupSort_length_le sts) (not_lt.mp h1))
    by_cases h2 : max_showtimes name < sts.length
    · simp only [fixShowtimes, if_neg h1, if_pos h2]
      exact (List.take_sublist _ _).nodup hn
    · simp only [fixShowtimes, if_neg h1, if_neg h2]
      exact hn

theorem fixShowtimes_length_le_cap (name : String) (sts : List String) :
    (fixShowtimes name sts).length ≤ max_showtimes name := by
  by_cases h1 : (dedupSort sts).length < sts.length
  · by_cases h2 : max_showtimes name < (dedupSort sts).length
    · simp only [fixShowtimes, if_pos h1, if_pos h2, List.length_take]
      exact min_le_left _ _
    · simp only [fixShowtimes, if_pos h1, if_neg h2]
      exact not_lt.mp h2
  · by_cases h2 : max_showtimes name < sts.length
    · simp only [fixShowtimes, if_neg h1, if_pos h2, List.length_take]
      exact min_le_left _ _
    · simp only [fixShowtimes, if_neg h1, if_neg h2]
      exact not_lt.mp h2

theorem fixShowtimes_asc_of_dups (name : String) (sts : List String) (h : ¬ sts.Nodup) :
    ascB (fixShowtimes name sts) = true := by
  have h1 : (dedupSort sts).length < sts.length :=
    lt_of_le_of_ne (dedupSort_length_le sts) (fun he => h (nodup_of_dedupSort_length he))
  by_cases h2 : max_showtimes name < (dedupSort sts).length
  · simp only [fixShowtimes, if_pos h1, if_pos h2]
    exact ascB_take _ _ (ascB_dedupSort sts)
  · simp only [fixShowtimes, if_pos h1, if_neg h2]
    exact ascB_dedupSort sts

theorem fixShowtimes_take_of_nodup (name : String) (sts : List String) (h : sts.Nodup) :
    fixShowtimes name sts = sts.take (fixShowtimes name sts).length := by
  have h1 : ¬ (dedupSort sts).length < sts.length := by
    rw [dedupSort_length_of_nodup h]
    exact lt_irrefl _
  by_cases h2 : max_showtimes name < sts.length
  · simp only [fixShowtimes, if_neg h1, if_pos h2, List.length_take]
    rw [min_eq_left (le_of_lt h2)]
  · simp only [fixShowtimes, if_neg h1, if_neg h2]
    exact (List.take_length sts).symm

theorem fixShowtimes_fixed (name : String) (sts : List String) (hn : sts.Nodup)
    (hc : sts.length ≤ max_showtimes name) : fixShowtimes name sts = sts := by
  have h1 : ¬ (dedupSort sts).length < sts.length := by
    rw [dedupSort_length_of_nodup hn]
    exact lt_irrefl _
  simp only [fixShowtimes, if_neg h1, if_neg (not_lt.mpr hc)]

theorem fixFilm_some_eq (name : String) (f : Dict) {f' : Dict}
    (h : (fixFilm name f).1 = some f') :
    f' = updFilm name f ∧ 0 < (fixShowtimes name (getShowtimes f)).length := by
  rw [fixFilm_fst] at h
  by_cases h0 : (fixShowtimes name (getShowtimes f)).length = 0
  · rw [if_pos h0] at h
    exact absurd h (by simp)
  · rw [if_neg h0] at h
    exact ⟨(Option.some_inj.mp h).symm, Nat.pos_of_ne_zero h0⟩

theorem fixFilm_none_iff (name : String) (f : Dict) :
    (fixFilm name f).1 = none ↔ fixShowtimes name (getShowtimes f) = [] := by
  rw [fixFilm_fst]
  by_cases h0 : (fixShowtimes name (getShowtimes f)).length = 0
  · simp [h0, List.length_eq_zero.mp h0]
  · simp [h0]
    intro he
    exact h0 (by rw [he]; rfl)

theorem fixFilm_of_fixed (name : String) (f : Dict)
    (hget : dget f "showtimes" = some (JVal.arr ((getShowtimes f).map JVal.s)))
    (hn : (getShowtimes f).Nodup)
    (hc : (getShowtimes f).length ≤ max_showtimes name)
    (hp : 0 < (getShowtimes f).length)
    (hcount : dget f "showtime_count" = some (JVal.n (getShowtimes f).length)) :
    fixFilm name f = (some f, []) := by
  have h1 : ¬ (dedupSort (getShowtimes f)).length < (getShowtimes f).length := by
    rw [dedupSort_length_of_nodup hn]
    exact lt_irrefl _
  have h2 : ¬ max_showtimes name < (getShowtimes f).length := not_lt.mpr hc
  have h3 : ¬ (getShowtimes f).length = 0 := Nat.pos_iff_ne_zero.mp hp
  have e1 : dset f "showtimes" (JVal.arr ((getShowtimes f).map JVal.s)) = f :=
    alset_eq_of_alget hget
  simp only [fixFilm, if_neg h1, if_neg h2, if_neg h3, List.append_nil, List.nil_append, e1]
  have e2 : dset f "showtime_count" (JVal.n (getShowtimes f).length) = f :=
    alset_eq_of_alget hcount
  rw [e2]

theorem updFilm_fixed (name : String) (f : Dict)
    (hp : 0 < (fixShowtimes name (getShowtimes f)).length) :
    fixFilm name (updFilm name f) = (some (updFilm name f), []) := by
  apply fixFilm_of_fixed
  · rw [getShowtimes_updFilm]
    exact dget_updFilm_showtimes name f
  · rw [getShowtimes_updFilm]
    exact fixShowtimes_nodup name _
  · rw [getShowtimes_updFilm]
    exact fixShowtimes_length_le_cap name _
  · rw [getShowtimes_updFilm]
    exact hp
  · rw [getShowtimes_updFilm]
    exact dget_updFilm_count name f

theorem fixFilms_decomp (name : String) : ∀ (films : List Dict) (a : List Dict) (b : List FixLog),
    films.foldl (fun acc film =>
      let r := fixFilm name film
      match r.1 with
      | some f' => (acc.1 ++ [f'], acc.2 ++ r.2)
      | none => (acc.1, acc.2 ++ r.2)) (a, b)
    = (a ++ films.filterMap (fun film => (fixFilm name film).1),
       b ++ (films.map (fun film => (fixFilm name film).2)).flatten) := by
  intro films
  induction films with
  | nil => intro a b; simp
  | cons f fs ih =>
      intro a b
      simp only [List.foldl_cons, List.filterMap_cons, List.map_cons, List.flatten_cons]
      cases hf : (fixFilm name f).1 with
      | some f' =>
          simp only [hf]
          rw [ih]
          simp [List.append_assoc]
      | none =>
          simp only [hf]
          rw [ih]
          simp [List.append_assoc]

theorem fixFilms_eq (name : String) (films : List Dict) :
    fixFilms name films =
      (films.filterMap (fun f => (fixFilm name f).1),
       (films.map (fun f => (fixFilm name f).2)).flatten) := by
  have h := fixFilms_decomp name films [] []
  simpa [fixFilms] using h

theorem fixFilms_of_all_fixed (name : String) (l : List Dict)
    (h : ∀ f ∈ l, fixFilm name f = (some f, [])) : fixFilms name l = (l, []) := by
  rw [fixFilms_eq]
  induction l with
  | nil => rfl
  | cons f fs ih =>
      have hf := h f (List.mem_cons_self f fs)
      have hrest : ∀ g ∈ fs, fixFilm name g = (some g, []) :=
        fun g hg => h g (List.mem_cons_of_mem f hg)
      have ih2 := ih hrest
      simp only [List.filterMap_cons, List.map_cons, List.flatten_cons, hf] at ih2 ⊢
      simp only [Prod.mk.injEq] at ih2
      simp [ih2.1, ih2.2]

theorem mem_fixFilms_fixed (name : String) (films : List Dict) :
    ∀ f' ∈ (fixFilms name films).1, fixFilm name f' = (some f', []) := by
  intro f' hf'
  simp only [fixFilms_eq] at hf'
  rcases List.mem_filterMap.mp hf' with ⟨f, _, hsome⟩
  rcases fixFilm_some_eq name f hsome with ⟨he, hp⟩
  subst he
  exact updFilm_fixed name f hp

theorem alget_fixCinema_ne (c : Dict) {k : String} (h : k ≠ "films") :
    alget (fixCinema c).1 k = alget c k := by
  simp only [fixCinema, dset]
  exact alget_alset_ne _ _ h

theorem alget_fixCinema_films (c : Dict) :
    alget (fixCinema c).1 "films"
      = some (JVal.arr
          (((fixFilms (getStr c "name" "Unknown") ((getArr c "films").map asObj)).1).map JVal.obj)) := by
  simp only [fixCinema, dset]
  exact alget_alset_self _ _ _

theorem fixCinema_of_fixed (c1 : Dict) (name : String) (kept : List Dict)
    (hname : getStr c1 "name" "Unknown" = name)
    (hfilms : alget c1 "films" = some (JVal.arr (kept.map JVal.obj)))
    (hkept : ∀ f ∈ kept, fixFilm name f = (some f, [])) :
    fixCinema c1 = (c1, [FixLog.summary name kept.length kept.length]) := by
  have h2 : getArr c1 "films" = kept.map JVal.obj := by
    simp only [getArr, hfilms]
  simp only [fixCinema, hname, h2, map_asObj_map_obj]
  rw [fixFilms_of_all_fixed name kept hkept]
  have h3 : dset c1 "films" (JVal.arr (kept.map JVal.obj)) = c1 := alset_eq_of_alget hfilms
  rw [h3]
  simp [List.length_map]

theorem fixCinema_roundtrip (c : Dict) :
    fixCinema (fixCinema c).1
      = ((fixCinema c).1,
         [FixLog.summary (getStr c "name" "Unknown")
            ((fixFilms (getStr c "name" "Unknown") ((getArr c "films").map asObj)).1).length
            ((fixFilms (getStr c "name" "Unknown") ((getArr c "films").map asObj)).1).length]) :=
  fixCinema_of_fixed _ _ _
    (getStr_ext (alget_fixCinema_ne c (by decide)) "Unknown")
    (alget_fixCinema_films c)
    (mem_fixFilms_fixed _ _)

theorem fixCinemaVal_roundtrip (v : JVal) :
    (fixCinemaVal ((fixCinemaVal v).1)).1 = (fixCinemaVal v).1
      ∧ ((fixCinemaVal ((fixCinemaVal v).1)).2).all FixLog.isSummary = true := by
  cases v with
  | obj c =>
      simp only [fixCinemaVal]
      rw [fixCinema_roundtrip c]
      exact ⟨by trivial, by trivial⟩
  | s x => exact ⟨by trivial, by trivial⟩
  | n x => exact ⟨by trivial, by trivial⟩
  | arr xs => exact ⟨by trivial, by trivial⟩

theorem fix_data_roundtrip (d : Dict) :
    (fix_data (fix_data d).1).1 = (fix_data d).1
      ∧ ((fix_data (fix_data d).1).2).all FixLog.isSummary = true := by
  cases hd : dget d "cinemas" with
  | none =>
      simp only [fix_data, hd]
      exact ⟨by trivial, by trivial⟩
  | some v =>
      cases v with
      | arr cs =>
          have hd1 : dget (dset d "cinemas" (JVal.arr ((cs.map fixCinemaVal).map Prod.fst))) "cinemas"
              = some (JVal.arr ((cs.map fixCinemaVal).map Prod.fst)) := alget_alset_self _ _ _
          simp only [fix_data, hd, hd1]
          constructor
          · have hmap : ((((cs.map fixCinemaVal).map Prod.fst).map fixCinemaVal).map Prod.fst)
                = ((cs.map fixCinemaVal).map Prod.fst) := by
              simp only [List.map_map]
              exact List.map_congr_left (fun x _ => (fixCinemaVal_roundtrip x).1)
            rw [hmap]
            exact alset_eq_of_alget hd1
          · rw [List.all_eq_true]
            intro x hx
            rcases List.mem_flatten.mp hx with ⟨L, hL, hxL⟩
            rcases List.mem_map.mp hL with ⟨p, hp, rfl⟩
            rcases List.mem_map.mp hp with ⟨cv, hcv, rfl⟩
            rcases List.mem_map.mp hcv with ⟨q, hq, rfl⟩
            rcases List.mem_map.mp hq with ⟨w, _, rfl⟩
            have hall := (fixCinemaVal_roundtrip w).2
            rw [List.all_eq_true] at hall
            exact hall x hxL
      | s x => simp only [fix_data, hd]; exact ⟨by trivial, by trivial⟩
      | n x => simp only [fix_data, hd]; exact ⟨by trivial, by trivial⟩
      | obj fs => simp only [fix_data, hd]; exact ⟨by trivial, by trivial⟩

theorem alget_fix_data_ne (d : Dict) {k : String} (h : k ≠ "cinemas") :
    alget (fix_data d).1 k = alget d k := by
  cases hd : dget d "cinemas" with
  | none => simp only [fix_data, hd]
  | some v =>
      cases v with
      | arr cs => simp only [fix_data, hd, dset]; exact alget_alset_ne _ _ h
      | s x => simp only [fix_data, hd]
      | n x => simp only [fix_data, hd]
      | obj fs => simp only [fix_data, hd]

theorem getArr_fix_data (d : Dict) :
    getArr (fix_data d).1 "cinemas" = (getArr d "cinemas").map (fun cv => (fixCinemaVal cv).1) := by
  have hd' : alget d "cinemas" = dget d "cinemas" := rfl
  cases hd : dget d "cinemas" with
  | none =>
      simp only [fix_data, hd, getArr, hd', hd]
      rfl
  | some v =>
      cases v with
      | arr cs =>
          have hd1 : alget (dset d "cinemas" (JVal.arr (cs.map (Prod.fst ∘ fixCinemaVal)))) "cinemas"
              = some (JVal.arr (cs.map (Prod.fst ∘ fixCinemaVal))) := alget_alset_self _ _ _
          simp only [fix_data, hd, getArr, hd', List.map_map, hd1]
          simp [Function.comp]
      | s x => simp only [fix_data, hd, getArr, hd', hd]; rfl
      | n x => simp only [fix_data, hd, getArr, hd', hd]; rfl
      | obj fs => simp only [fix_data, hd, getArr, hd', hd]; rfl

theorem fixFilms_sublist (name : String) (films : List Dict) :
    ((fixFilms name films).1).Sublist (films.map (updFilm name)) := by
  rw [fixFilms_eq]
  induction films with
  | nil => simp
  | cons f fs ih =>
      simp only [List.filterMap_cons, List.map_cons]
      cases hf : (fixFilm name f).1 with
      | none => exact ih.cons _
      | some f' =>
          have he := (fixFilm_some_eq name f hf).1
          subst he
          exact ih.cons₂ _

theorem fixFilm_preserves (name : String) (f : Dict) {k : String} {f' : Dict}
    (h : (fixFilm name f).1 = some f') (h1 : k ≠ "showtimes") (h2 : k ≠ "showtime_count") :
    dget f' k = dget f k := by
  rcases fixFilm_some_eq name f h with ⟨he, _⟩
  subst he
  exact dget_updFilm_ne name f h1 h2

/-! ## Validator lemmas -/

theorem foldl_pair_append {α β γ : Type} (f : γ → List α × List β) (l : List γ) :
    ∀ (a : List α) (b : List β),
    l.foldl (fun acc x => (acc.1 ++ (f x).1, acc.2 ++ (f x).2)) (a, b)
      = (a ++ (l.map (fun x => (f x).1)).flatten, b ++ (l.map (fun x => (f x).2)).flatten) := by
  induction l with
  | nil => intro a b; simp
  | cons x xs ih =>
      intro a b
      simp only [List.foldl_cons, List.map_cons, List.flatten_cons]
      rw [ih]
      simp [List.append_assoc]

theorem firstKeys_snoc (l : List String) (d : String) :
    firstKeys (l ++ [d]) = if d ∈ firstKeys l then firstKeys l else firstKeys l ++ [d] := by
  simp only [firstKeys, List.foldl_append, List.foldl_cons, List.foldl_nil]

theorem mem_firstKeys (x : String) : ∀ l : List String, x ∈ firstKeys l ↔ x ∈ l := by
  intro l
  induction l using List.reverseRecOn with
  | nil => rfl
  | append_singleton l d ih =>
      rw [firstKeys_snoc]
      by_cases h : d ∈ firstKeys l
      · rw [if_pos h]
        simp only [List.mem_append, List.mem_singleton, ih]
        constructor
        · exact Or.inl
        · rintro (hx | rfl)
          · exact hx
          · exact ih.mp h
      · rw [if_neg h]
        simp [ih]

theorem firstKeys_nodup : ∀ l : List String, (firstKeys l).Nodup := by
  intro l
  induction l using List.reverseRecOn with
  | nil => exact List.nodup_nil
  | append_singleton l d ih =>
      rw [firstKeys_snoc]
      by_cases h : d ∈ firstKeys l
      · rw [if_pos h]; exact ih
      · rw [if_neg h]
        simp [List.nodup_append, ih, h]

theorem groupByDay_snoc (l : List Dict) (f : Dict) :
    groupByDay (l ++ [f]) = addToGroup (groupByDay l) (dayOf f) f := by
  simp only [groupByDay, List.foldl_append, List.foldl_cons, List.foldl_nil]

theorem addToGroup_not_mem (G : List (String × List Dict)) (d : String) (f : Dict)
    (h : ∀ g ∈ G, g.1 ≠ d) : addToGroup G d f = G ++ [(d, [f])] := by
  induction G with
  | nil => rfl
  | cons g G ih =>
      obtain ⟨k, fs⟩ := g
      have hk : k ≠ d := h (k, fs) (List.mem_cons_self _ _)
      simp only [addToGroup, if_neg hk, List.cons_append]
      rw [ih (fun g hg => h g (List.mem_cons_of_mem _ hg))]

theorem addToGroup_map (ks : List String) (F : String → List Dict) (d : String) (f : Dict)
    (hnd : ks.Nodup) (hd : d ∈ ks) :
    addToGroup (ks.map (fun k => (k, F k))) d f
      = ks.map (fun k => (k, F k ++ if k = d then [f] else [])) := by
  induction ks with
  | nil => cases hd
  | cons k ks ih =>
      by_cases hk : k = d
      · subst hk
        simp only [List.map_cons, addToGroup, eq_self_iff_true, if_true]
        congr 1
        apply List.map_congr_left
        intro x hx
        have hxk : x ≠ k := fun he => (List.nodup_cons.mp hnd).1 (he ▸ hx)
        simp [hxk]
      · have hd' : d ∈ ks := by
          rcases List.mem_cons.mp hd with h | h
          · exact absurd h.symm hk
          · exact h
        simp only [List.map_cons, addToGroup, if_neg hk]
        rw [ih (List.nodup_cons.mp hnd).2 hd']
        simp [hk]

theorem groupByDay_eq_groupsSpec : ∀ films : List Dict, groupByDay films = groupsSpec films := by
  intro films
  induction films using List.reverseRecOn with
  | nil => rfl
  | append_singleton l f ih =>
      rw [groupByDay_snoc, ih]
      by_cases hmem : dayOf f ∈ firstKeys (l.map dayOf)
      · have hkeys : firstKeys ((l ++ [f]).map dayOf) = firstKeys (l.map dayOf) := by
          rw [List.map_append]
          simp only [List.map_cons, List.map_nil]
          rw [firstKeys_snoc, if_pos hmem]
        rw [groupsSpec, addToGroup_map _ _ _ _ (firstKeys_nodup _) hmem, groupsSpec, hkeys]
        apply List.map_congr_left
        intro k _
        rw [List.filter_append]
        refine congrArg (Prod.mk k) ?_
        refine congrArg (fun t => List.filter (fun g => dayOf g == k) l ++ t) ?_
        by_cases he : k = dayOf f
        · subst he
          simp
        · simp only [List.filter_cons, List.filter_nil]
          have : (dayOf f == k) = false := by
            simp [Ne.symm he]
          rw [this]
          simp [he]
      · have hforall : ∀ g ∈ groupsSpec l, g.1 ≠ dayOf f := by
          intro g hg
          rcases List.mem_map.mp hg with ⟨k, hk, rfl⟩
          intro he
          exact hmem (he ▸ hk)
        rw [addToGroup_not_mem _ _ _ hforall]
        have hkeys : firstKeys ((l ++ [f]).map dayOf) = firstKeys (l.map dayOf) ++ [dayOf f] := by
          rw [List.map_append]
          simp only [List.map_cons, List.map_nil]
          rw [firstKeys_snoc, if_neg hmem]
        rw [groupsSpec, groupsSpec, hkeys, List.map_append]
        congr 1
        · apply List.map_congr_left
          intro k hk
          rw [List.filter_append]
          have hne : dayOf f ≠ k := fun he => hmem (he ▸ hk)
          simp only [List.filter_cons, List.filter_nil]
          have : (dayOf f == k) = false := by simp [hne]
          rw [this]
          simp
        · simp only [List.map_cons, List.map_nil]
          have hfl : l.filter (fun g => dayOf g == dayOf f) = [] := by
            rw [List.filter_eq_nil_iff]
            intro g hg hbeq
            rw [beq_iff_eq] at hbeq
            exact hmem ((mem_firstKeys _ _).mpr (hbeq ▸ List.mem_map_of_mem dayOf hg))
          rw [List.filter_append, hfl]
          simp

theorem validateGroup_eq_spec (name day : String) (dfs : List Dict) :
    validateGroup name day dfs = (groupIssuesSpec name day dfs, groupWarningsSpec name day dfs) := by
  simp only [validateGroup]
  rw [foldl_pair_append (filmChecks name day) dfs [] []]
  simp only [List.nil_append, groupIssuesSpec, groupWarningsSpec]
  by_cases h30 : 30 < dfs.length
  · by_cases hdup : (titleCounts dfs).filter (fun p => 1 < p.2) = []
    · simp [h30, hdup, List.append_assoc]
    · simp [h30, hdup, List.append_assoc]
  · by_cases h20 : 20 < dfs.length
    · by_cases hdup : (titleCounts dfs).filter (fun p => 1 < p.2) = []
      · simp [h30, h20, hdup, List.append_assoc]
      · simp [h30, h20, hdup, List.append_assoc]
    · by_cases hdup : (titleCounts dfs).filter (fun p => 1 < p.2) = []
      · simp [h30, h20, hdup, List.append_assoc]
      · simp [h30, h20, hdup, List.append_assoc]

theorem validateFilms_eq_spec (name : String) (films : List Dict) :
    validateFilms name films = (cinemaIssuesSpec name films, cinemaWarningsSpec name films) := by
  simp only [validateFilms]
  rw [foldl_pair_append (fun g => validateGroup name g.1 g.2) (groupByDay films) [] []]
  simp only [List.nil_append, cinemaIssuesSpec, cinemaWarningsSpec, groupByDay_eq_groupsSpec]
  simp only [Prod.mk.injEq]
  constructor
  · exact congrArg List.flatten
      (List.map_congr_left (fun g _ => congrArg Prod.fst (validateGroup_eq_spec name g.1 g.2)))
  · exact congrArg List.flatten
      (List.map_congr_left (fun g _ => congrArg Prod.snd (validateGroup_eq_spec name g.1 g.2)))

theorem foldl_cinemaStep (l : List JVal) :
    ∀ (a : List Issue) (b : List Warning) (s : List (String × CStat)),
    l.foldl cinemaStep (a, b, s)
      = (a ++ (l.map (fun cv => (validateFilms (nameOfVal cv) (filmsOfVal cv)).1)).flatten,
         b ++ (l.map (fun cv => (validateFilms (nameOfVal cv) (filmsOfVal cv)).2)).flatten,
         l.foldl (fun s cv => alset s (nameOfVal cv) (statOf (filmsOfVal cv))) s) := by
  induction l with
  | nil => intro a b s; simp
  | cons cv l ih =>
      intro a b s
      simp only [List.foldl_cons, List.map_cons, List.flatten_cons, cinemaStep]
      rw [ih]
      simp [List.append_assoc]

theorem validate_eq_spec (data : Dict) :
    (validate data).issues = issuesSpec data
      ∧ (validate data).warnings = warningsSpec data
      ∧ (validate data).stats = statsFold data
      ∧ (validate data).total_films = statsTotal (statsFold data) := by
  simp only [validate]
  rw [foldl_cinemaStep (getArr data "cinemas") [] [] []]
  simp only [List.nil_append]
  rw [show List.foldl (fun s cv => alset s (nameOfVal cv) (statOf (filmsOfVal cv))) []
        (getArr data "cinemas") = statsFold data from rfl]
  refine ⟨?_, ?_, rfl, rfl⟩
  · by_cases hglobal : 500 < statsTotal (statsFold data)
    · simp only [issuesSpec, hglobal, if_true]
      congr 1
      exact congrArg List.flatten
        (List.map_congr_left (fun cv _ =>
          congrArg Prod.fst (validateFilms_eq_spec (nameOfVal cv) (filmsOfVal cv))))
    · simp only [issuesSpec, hglobal, if_false, List.append_nil]
      exact congrArg List.flatten
        (List.map_congr_left (fun cv _ =>
          congrArg Prod.fst (validateFilms_eq_spec (nameOfVal cv) (filmsOfVal cv))))
  · simp only [warningsSpec]
    exact congrArg List.flatten
      (List.map_congr_left (fun cv _ =>
        congrArg Prod.snd (validateFilms_eq_spec (nameOfVal cv) (filmsOfVal cv))))

theorem countP_flatten_zero {α : Type} (p : α → Bool) (L : List (List α))
    (h : ∀ l ∈ L, l.countP p = 0) : L.flatten.countP p = 0 := by
  rw [List.countP_flatten]
  have h2 : L.map (List.countP p) = L.map (fun _ => 0) := List.map_congr_left h
  rw [h2]
  simp

theorem countP_isGlobalB_filmChecks (n d : String) (f : Dict) :
    (filmChecks n d f).1.countP isGlobalB = 0 := by
  simp only [filmChecks]
  by_cases h1 : 4 < (getShowtimes f).length
  · by_cases h2 : (getShowtimes f).length ≠ (getShowtimes f).dedup.length
    · simp [h1, h2, isGlobalB, List.countP_append, List.countP_cons]
    · simp [h1, h2, isGlobalB, List.countP_append, List.countP_cons]
  · by_cases h2 : (getShowtimes f).length ≠ (getShowtimes f).dedup.length
    · simp [h1, h2, isGlobalB, List.countP_append, List.countP_cons]
    · simp [h1, h2, isGlobalB, List.countP_append, List.countP_cons]

theorem countP_isDayCountB_filmChecks (n d : String) (f : Dict) :
    (filmChecks n d f).1.countP isDayCountB = 0 := by
  simp only [filmChecks]
  by_cases h1 : 4 < (getShowtimes f).length
  · by_cases h2 : (getShowtimes f).length ≠ (getShowtimes f).dedup.length
    · simp [h1, h2, isDayCountB, List.countP_append, List.countP_cons]
    · simp [h1, h2, isDayCountB, List.countP_append, List.countP_cons]
  · by_cases h2 : (getShowtimes f).length ≠ (getShowtimes f).dedup.length
    · simp [h1, h2, isDayCountB, List.countP_append, List.countP_cons]
    · simp [h1, h2, isDayCountB, List.countP_append, List.countP_cons]

theorem countP_isDayHighB_filmChecks (n d : String) (f : Dict) :
    (filmChecks n d f).2.countP isDayHighB = 0 := by
  simp only [filmChecks]
  by_cases h0 : (getShowtimes f).length = 0
  · simp [h0, isDayHighB, List.countP_cons]
  · simp [h0, isDayHighB]

theorem countP_isGlobalB_group (n d : String) (dfs : List Dict) :
    (groupIssuesSpec n d dfs).countP isGlobalB = 0 := by
  simp only [groupIssuesSpec, List.countP_append]
  have h1 : ((dfs.map (fun f => (filmChecks n d f).1)).flatten).countP isGlobalB = 0 := by
    apply countP_flatten_zero
    intro l hl
    rcases List.mem_map.mp hl with ⟨f, _, rfl⟩
    exact countP_isGlobalB_filmChecks n d f
  rw [h1]
  by_cases h30 : 30 < dfs.length
  · by_cases hdup : (titleCounts dfs).filter (fun p => 1 < p.2) = []
    · simp [h30, hdup, isGlobalB, List.countP_cons]
    · simp [h30, hdup, isGlobalB, List.countP_cons]
  · by_cases hdup : (titleCounts dfs).filter (fun p => 1 < p.2) = []
    · simp [h30, hdup, isGlobalB, List.countP_cons]
    · simp [h30, hdup, isGlobalB, List.countP_cons]

theorem countP_isGlobalB_cinema (n : String) (films : List Dict) :
    (cinemaIssuesSpec n films).countP isGlobalB = 0 := by
  simp only [cinemaIssuesSpec]
  apply countP_flatten_zero
  intro l hl
  rcases List.mem_map.mp hl with ⟨g, _, rfl⟩
  exact countP_isGlobalB_group n g.1 g.2

theorem countP_global_validate (data : Dict) :
    (validate data).issues.countP isGlobalB
      = if 500 < statsTotal (statsFold data) then 1 else 0 := by
  rw [(validate_eq_spec data).1, issuesSpec, List.countP_append]
  have h1 : (((getArr data "cinemas").map
      (fun cv => cinemaIssuesSpec (nameOfVal cv) (filmsOfVal cv))).flatten).countP isGlobalB = 0 := by
    apply countP_flatten_zero
    intro l hl
    rcases List.mem_map.mp hl with ⟨cv, _, rfl⟩
    exact countP_isGlobalB_cinema _ _
  rw [h1]
  by_cases h : 500 < statsTotal (statsFold data)
  · simp [h, isGlobalB, List.countP_cons]
  · simp [h]

theorem countP_day_validateGroup (n d : String) (dfs : List Dict) :
    ((validateGroup n d dfs).1.countP isDayCountB = if 30 < dfs.length then 1 else 0)
      ∧ ((validateGroup n d dfs).2.countP isDayHighB
          = if 30 < dfs.length then 0 else if 20 < dfs.length then 1 else 0) := by
  rw [validateGroup_eq_spec]
  constructor
  · simp only [groupIssuesSpec, List.countP_append]
    have h1 : ((dfs.map (fun f => (filmChecks n d f).1)).flatten).countP isDayCountB = 0 := by
      apply countP_flatten_zero
      intro l hl
      rcases List.mem_map.mp hl with ⟨f, _, rfl⟩
      exact countP_isDayCountB_filmChecks n d f
    rw [h1]
    by_cases h30 : 30 < dfs.length
    · by_cases hdup : (titleCounts dfs).filter (fun p => 1 < p.2) = []
      · simp [h30, hdup, isDayCountB, List.countP_cons]
      · simp [h30, hdup, isDayCountB, List.countP_cons]
    · by_cases hdup : (titleCounts dfs).filter (fun p => 1 < p.2) = []
      · simp [h30, hdup, isDayCountB, List.countP_cons]
      · simp [h30, hdup, isDayCountB, List.countP_cons]
  · simp only [groupWarningsSpec, List.countP_append]
    have h2 : ((dfs.map (fun f => (filmChecks n d f).2)).flatten).countP isDayHighB = 0 := by
      apply countP_flatten_zero
      intro l hl
      rcases List.mem_map.mp hl with ⟨f, _, rfl⟩
      exact countP_isDayHighB_filmChecks n d f
    rw [h2]
    by_cases h30 : 30 < dfs.length
    · simp [h30]
    · by_cases h20 : 20 < dfs.length
      · simp [h30, h20, isDayHighB, List.countP_cons]
      · simp [h30, h20]

theorem alset_fresh {α : Type} : ∀ (s : List (String × α)) (k : String) (v : α),
    (∀ p ∈ s, p.1 ≠ k) → alset s k v = s ++ [(k, v)] := by
  intro s
  induction s with
  | nil => intro k v _; rfl
  | cons p rest ih =>
      intro k v h
      obtain ⟨k', v'⟩ := p
      have hk : k' ≠ k := h (k', v') (List.mem_cons_self _ _)
      simp only [alset, if_neg hk, List.cons_append]
      rw [ih k v (fun q hq => h q (List.mem_cons_of_mem _ hq))]

theorem statsTotal_append (s t : List (String × CStat)) :
    statsTotal (s ++ t) = statsTotal s + statsTotal t := by
  simp [statsTotal]

theorem statsFold_total_distinct : ∀ (l : List JVal) (s : List (String × CStat)),
    (l.map nameOfVal).Nodup →
    (∀ cv ∈ l, nameOfVal cv ∉ s.map Prod.fst) →
    statsTotal (l.foldl (fun s cv => alset s (nameOfVal cv) (statOf (filmsOfVal cv))) s)
      = statsTotal s + (l.map (fun cv => (filmsOfVal cv).length)).sum := by
  intro l
  induction l with
  | nil => intro s _ _; simp
  | cons cv l ih =>
      intro s hnd hfresh
      rw [List.map_cons, List.nodup_cons] at hnd
      simp only [List.foldl_cons, List.map_cons, List.sum_cons]
      have hstep : alset s (nameOfVal cv) (statOf (filmsOfVal cv))
          = s ++ [(nameOfVal cv, statOf (filmsOfVal cv))] :=
        alset_fresh s _ _ (fun p hp he =>
          hfresh cv (List.mem_cons_self _ _) (he ▸ List.mem_map_of_mem Prod.fst hp))
      have hfresh2 : ∀ cv' ∈ l,
          nameOfVal cv' ∉ (s ++ [(nameOfVal cv, statOf (filmsOfVal cv))]).map Prod.fst := by
        intro cv' hcv' hn
        rw [List.map_append, List.mem_append] at hn
        rcases hn with hn | hn
        · exact hfresh cv' (List.mem_cons_of_mem _ hcv') hn
        · simp only [List.map_cons, List.map_nil, List.mem_singleton] at hn
          exact hnd.1 (hn ▸ List.mem_map_of_mem nameOfVal hcv')
      rw [hstep, ih _ hnd.2 hfresh2, statsTotal_append]
      simp only [statsTotal, statOf, List.map_cons, List.map_nil, List.sum_cons, List.sum_nil]
      omega

theorem statsTotal_eq_recordsTotal (data : Dict) (h : (cinemaNames data).Nodup) :
    statsTotal (statsFold data) = recordsTotal data := by
  have h2 := statsFold_total_distinct (getArr data "cinemas") [] h (fun cv _ => by simp)
  simpa [statsFold, recordsTotal, statsTotal] using h2

/-! ## Leniency lemmas: documented defaults behave like missing fields -/

theorem alget_fillIfMissing_ne (d : Dict) (k k' : String) (v : JVal) (h : k' ≠ k) :
    alget (fillIfMissing d k v) k' = alget d k' := by
  simp only [fillIfMissing]
  cases hk : alget d k with
  | none => exact alget_alset_ne _ _ h
  | some w => rfl

theorem getArr_ext {d d' : Dict} {k : String} (h : alget d k = alget d' k) :
    getArr d k = getArr d' k := by
  simp only [getArr, h]

theorem getStr_fill_default (d : Dict) (k dflt : String) :
    getStr (fillIfMissing d k (JVal.s dflt)) k dflt = getStr d k dflt := by
  simp only [fillIfMissing, getStr]
  cases hk : alget d k with
  | none =>
      rw [show alget (dset d k (JVal.s dflt)) k = some (JVal.s dflt) from alget_alset_self _ _ _]
  | some w => rw [hk]

theorem getArr_fill_empty (d : Dict) (k : String) :
    getArr (fillIfMissing d k (JVal.arr [])) k = getArr d k := by
  simp only [fillIfMissing, getArr]
  cases hk : alget d k with
  | none =>
      rw [show alget (dset d k (JVal.arr [])) k = some (JVal.arr []) from alget_alset_self _ _ _]
  | some w => rw [hk]

theorem titleOf_canonFilm (f : Dict) : titleOf (canonFilm f) = titleOf f := by
  simp only [canonFilm, titleOf]
  rw [getStr_ext (alget_fillIfMissing_ne
        (fillIfMissing (fillIfMissing f "title" (JVal.s "Unknown")) "day" (JVal.s "unknown"))
        "showtimes" "title" (JVal.arr []) (by decide)) "Unknown"]
  rw [getStr_ext (alget_fillIfMissing_ne (fillIfMissing f "title" (JVal.s "Unknown"))
        "day" "title" (JVal.s "unknown") (by decide)) "Unknown"]
  exact getStr_fill_default f "title" "Unknown"

theorem dayOf_canonFilm (f : Dict) : dayOf (canonFilm f) = dayOf f := by
  simp only [canonFilm, dayOf]
  rw [getStr_ext (alget_fillIfMissing_ne
        (fillIfMissing (fillIfMissing f "title" (JVal.s "Unknown")) "day" (JVal.s "unknown"))
        "showtimes" "day" (JVal.arr []) (by decide)) "unknown"]
  rw [getStr_fill_default (fillIfMissing f "title" (JVal.s "Unknown")) "day" "unknown"]
  exact getStr_ext (alget_fillIfMissing_ne f "title" "day" (JVal.s "Unknown") (by decide)) "unknown"

theorem getShowtimes_canonFilm (f : Dict) : getShowtimes (canonFilm f) = getShowtimes f := by
  simp only [canonFilm, getShowtimes]
  rw [getArr_fill_empty]
  rw [getArr_ext (alget_fillIfMissing_ne (fillIfMissing f "title" (JVal.s "Unknown"))
        "day" "showtimes" (JVal.s "unknown") (by decide))]
  rw [getArr_ext (alget_fillIfMissing_ne f "title" "showtimes" (JVal.s "Unknown") (by decide))]

theorem filmChecks_canonFilm (n d : String) (f : Dict) :
    filmChecks n d (canonFilm f) = filmChecks n d f := by
  simp only [filmChecks, getShowtimes_canonFilm, titleOf_canonFilm]

theorem titleCounts_map_canonFilm (l : List Dict) :
    titleCounts (l.map canonFilm) = titleCounts l := by
  simp only [titleCounts, List.foldl_map, titleOf_canonFilm]

theorem groupByDay_map_canonFilm (l : List Dict) :
    groupByDay (l.map canonFilm) = (groupByDay l).map (fun g => (g.1, g.2.map canonFilm)) := by
  rw [groupByDay_eq_groupsSpec, groupByDay_eq_groupsSpec]
  simp only [groupsSpec, List.map_map]
  have hkeys : l.map (dayOf ∘ canonFilm) = l.map dayOf :=
    List.map_congr_left (fun f _ => dayOf_canonFilm f)
  rw [hkeys]
  apply List.map_congr_left
  intro k _
  refine congrArg (Prod.mk k) ?_
  rw [List.filter_map]
  refine congrArg (List.map canonFilm) ?_
  apply List.filter_congr
  intro f _
  simp [Function.comp, dayOf_canonFilm f]

theorem validateGroup_map_canonFilm (n d : String) (dfs : List Dict) :
    validateGroup n d (dfs.map canonFilm) = validateGroup n d dfs := by
  rw [validateGroup_eq_spec, validateGroup_eq_spec]
  have hfc1 : (dfs.map canonFilm).map (fun f => (filmChecks n d f).1)
      = dfs.map (fun f => (filmChecks n d f).1) := by
    rw [List.map_map]
    exact List.map_congr_left (fun f _ => by simp [Function.comp, filmChecks_canonFilm])
  have hfc2 : (dfs.map canonFilm).map (fun f => (filmChecks n d f).2)
      = dfs.map (fun f => (filmChecks n d f).2) := by
    rw [List.map_map]
    exact List.map_congr_left (fun f _ => by simp [Function.comp, filmChecks_canonFilm])
  simp only [groupIssuesSpec, groupWarningsSpec, List.length_map, hfc1, hfc2,
    titleCounts_map_canonFilm]

theorem statOf_map_canonFilm (films : List Dict) :
    statOf (films.map canonFilm) = statOf films := by
  simp [statOf, groupByDay_map_canonFilm, List.map_map, Function.comp, List.length_map]

theorem validateFilms_map_canonFilm (n : String) (films : List Dict) :
    validateFilms n (films.map canonFilm) = validateFilms n films := by
  simp only [validateFilms, groupByDay_map_canonFilm, List.foldl_map]
  simp only [validateGroup_map_canonFilm]

theorem cinemaStep_fill_name (acc : List Issue × List Warning × List (String × CStat))
    (c : Dict) (h : dget c "name" = none) :
    cinemaStep acc (JVal.obj (dset c "name" (JVal.s "Unknown"))) = cinemaStep acc (JVal.obj c) := by
  simp only [cinemaStep, nameOfVal, filmsOfVal, asObj]
  have h1 : getStr (dset c "name" (JVal.s "Unknown")) "name" "Unknown"
      = getStr c "name" "Unknown" := by
    simp only [getStr, dset]
    rw [alget_alset_self]
    rw [show alget c "name" = none from h]
  have h2 : getArr (dset c "name" (JVal.s "Unknown")) "films" = getArr c "films" :=
    getArr_ext (alget_alset_ne _ _ (by decide))
  rw [h1, h2]

theorem validate_fill_cinemas (data : Dict) (h : dget data "cinemas" = none) :
    validate data = validate (dset data "cinemas" (JVal.arr [])) := by
  have h1 : getArr data "cinemas" = getArr (dset data "cinemas" (JVal.arr [])) "cinemas" := by
    simp only [getArr, dset]
    rw [show alget data "cinemas" = none from h, alget_alset_self]
  simp only [validate]
  rw [h1]

/-! ## Claims -/

/-- C1, counterexample: in a cinema whose name contains "Regular" the cap
used by the truncation step is 3, not 5 — a film with four distinct
showtimes is truncated to three. -/
theorem C1_counterexample :
    strContains "Regular Cinema" "Regular" = true
      ∧ max_showtimes "Regular Cinema" = 3
      ∧ ¬ max_showtimes "Regular Cinema" = 5
      ∧ getShowtimes ((fixFilm "Regular Cinema" regFilm).1.getD [])
          = ["10:00", "12:00", "14:00"] := by
  refine ⟨by decide, by decide, by decide, ?_⟩
  rfl

/-- C1, amended: the per-cinema cap used by the truncation step of the
fixer is 3 when the cinema name contains the substring "Regular" and 5
otherwise, and a kept film's showtime list never exceeds that cap. -/
theorem C1_cap (cinema_name : String) :
    (strContains cinema_name "Regular" = true → max_showtimes cinema_name = 3)
    ∧ (strContains cinema_name "Regular" = false → max_showtimes cinema_name = 5)
    ∧ ∀ (f f' : Dict), (fixFilm cinema_name f).1 = some f' →
        (getShowtimes f').length ≤ max_showtimes cinema_name := by
  refine ⟨?_, ?_, ?_⟩
  · intro h
    simp [max_showtimes, h]
  · intro h
    simp [max_showtimes, h]
  · intro f f' hf
    rcases fixFilm_some_eq _ _ hf with ⟨he, _⟩
    subst he
    rw [getShowtimes_updFilm]
    exact fixShowtimes_length_le_cap _ _

/-- C1, witness: the amended cap rule at the names "Regular Cinema" and "Odeon". -/
theorem C1_cap_witness :
    max_showtimes "Regular Cinema" = 3 ∧ max_showtimes "Odeon" = 5
      ∧ (getShowtimes (updFilm "Regular Cinema" regFilm)).length
          ≤ max_showtimes "Regular Cinema" :=
  ⟨(C1_cap "Regular Cinema").1 (by decide),
   (C1_cap "Odeon").2.1 (by decide),
   (C1_cap "Regular Cinema").2.2 regFilm (updFilm "Regular Cinema" regFilm) rfl⟩

/-- C2, counterexample: a film whose showtimes are distinct but out of
order is kept by the fixer with its showtime list unsorted — the dedup
step only replaces the list when it removed a duplicate. -/
theorem C2_counterexample :
    getShowtimes c2OutFilm = ["b", "a"]
      ∧ ascB (getShowtimes c2OutFilm) = false
      ∧ dget c2OutFilm "showtime_count" = some (JVal.n 2) := by
  refine ⟨rfl, rfl, rfl⟩

/-- C2, amended: a film kept by the fixer has duplicate-free showtimes,
at most the cinema cap of them, a matching `showtime_count`, and its list
is strictly ascending when the input list contained a duplicate; when the
input was already duplicate-free the output is a prefix of the input in
input order (so possibly unsorted). -/
theorem C2_fixed_films (cinema_name : String) (f f' : Dict)
    (h : (fixFilm cinema_name f).1 = some f') :
    getShowtimes f' = fixShowtimes cinema_name (getShowtimes f)
    ∧ (getShowtimes f').Nodup
    ∧ (getShowtimes f').length ≤ max_showtimes cinema_name
    ∧ 0 < (getShowtimes f').length
    ∧ dget f' "showtime_count" = some (JVal.n (getShowtimes f').length)
    ∧ (¬ (getShowtimes f).Nodup → ascB (getShowtimes f') = true)
    ∧ ((getShowtimes f).Nodup →
        getShowtimes f' = (getShowtimes f).take (getShowtimes f').length) := by
  rcases fixFilm_some_eq _ _ h with ⟨he, hp⟩
  subst he
  rw [getShowtimes_updFilm]
  exact ⟨rfl, fixShowtimes_nodup _ _, fixShowtimes_length_le_cap _ _, hp,
    dget_updFilm_count _ _, fun hnd => fixShowtimes_asc_of_dups _ _ hnd,
    fun hnd => fixShowtimes_take_of_nodup _ _ hnd⟩

/-- C2, witness: the amended statement at a film with duplicated showtimes
(sorted output) and at a film with distinct showtimes (prefix output). -/
theorem C2_fixed_films_witness :
    ascB (getShowtimes (updFilm "C" dupFilm)) = true
      ∧ (getShowtimes (updFilm "C" dupFilm)).Nodup
      ∧ getShowtimes (updFilm "C" regFilm)
          = (getShowtimes regFilm).take (getShowtimes (updFilm "C" regFilm)).length :=
  ⟨(C2_fixed_films "C" dupFilm (updFilm "C" dupFilm) rfl).2.2.2.2.2.1 (by decide),
   (C2_fixed_films "C" dupFilm (updFilm "C" dupFilm) rfl).2.1,
   (C2_fixed_films "C" regFilm (updFilm "C" regFilm) rfl).2.2.2.2.2.2 (by decide)⟩

/-- C3: the fixer is idempotent — running the in-memory fix transformation
on its own output leaves the data unchanged, and the second run logs
nothing but per-cinema summary lines. -/
theorem C3_fixer_idempotent (data : Dict) :
    (fix_data (fix_data data).1).1 = (fix_data data).1
      ∧ ((fix_data (fix_data data).1).2).all FixLog.isSummary = true :=
  fix_data_roundtrip data

set_option maxRecDepth 100000 in
/-- C4, counterexample: a dataset with two cinema records of the same name
and 502 films in total produces no global hard issue, because the global
total is computed from the name-keyed stats dict, which collapses
duplicate cinema names (the last record wins). -/
theorem C4_counterexample :
    recordsTotal c4Data = 502
      ∧ 500 < recordsTotal c4Data
      ∧ (validate c4Data).issues.countP isGlobalB = 0 := by
  refine ⟨by decide, by decide, ?_⟩
  rw [countP_global_validate c4Data]
  rw [show statsTotal (statsFold c4Data) = 251 by decide]
  decide

/-- C4, amended: the validator emits exactly one global hard issue iff the
stats-based total (films of the last record per distinct cinema name)
exceeds 500; when cinema names are pairwise distinct this total equals the
plain sum over all records, so 501 films yield one issue and 500 none. -/
theorem C4_global_total (data : Dict) :
    (validate data).issues.countP isGlobalB
        = (if 500 < statsTotal (statsFold data) then 1 else 0)
    ∧ (validate data).total_films = statsTotal (statsFold data)
    ∧ ((cinemaNames data).Nodup → statsTotal (statsFold data) = recordsTotal data) :=
  ⟨countP_global_validate data, (validate_eq_spec data).2.2.2,
   fun h => statsTotal_eq_recordsTotal data h⟩

/-- C4, witness: the amended statement at a small dataset with two
distinct cinema names. -/
theorem C4_global_total_witness :
    statsTotal (statsFold smallData) = recordsTotal smallData
      ∧ (validate smallData).issues.countP isGlobalB
          = (if 500 < statsTotal (statsFold smallData) then 1 else 0) :=
  ⟨(C4_global_total smallData).2.2 (by decide), (C4_global_total smallData).1⟩

/-- C5: the day film-count thresholds are mutually exclusive — a group
with more than 30 films yields exactly one day-count hard issue and no
day-count warning, and a group with more than 20 but at most 30 films
yields exactly one day-count warning and no day-count hard issue. -/
theorem C5_day_thresholds (cinema_name day : String) (day_films : List Dict) :
    (30 < day_films.length →
        (validateGroup cinema_name day day_films).1.countP isDayCountB = 1
        ∧ (validateGroup cinema_name day day_films).2.countP isDayHighB = 0)
    ∧ (20 < day_films.length → day_films.length ≤ 30 →
        (validateGroup cinema_name day day_films).1.countP isDayCountB = 0
        ∧ (validateGroup cinema_name day day_films).2.countP isDayHighB = 1) := by
  have h := countP_day_validateGroup cinema_name day day_films
  constructor
  · intro h30
    rw [h.1, h.2]
    simp [h30]
  · intro h20 h30
    have h30' : ¬ 30 < day_films.length := not_lt.mpr h30
    rw [h.1, h.2]
    simp [h30', h20]

/-- C5, witness: the thresholds at concrete groups of 31 and 21 films. -/
theorem C5_day_thresholds_witness :
    ((validateGroup "N" "d" (List.replicate 31 ([] : Dict))).1.countP isDayCountB = 1
      ∧ (validateGroup "N" "d" (List.replicate 31 ([] : Dict))).2.countP isDayHighB = 0)
    ∧ ((validateGroup "N" "d" (List.replicate 21 ([] : Dict))).1.countP isDayCountB = 0
      ∧ (validateGroup "N" "d" (List.replicate 21 ([] : Dict))).2.countP isDayHighB = 1) :=
  ⟨(C5_day_thresholds "N" "d" _).1 (by decide),
   (C5_day_thresholds "N" "d" _).2 (by decide) (by decide)⟩

/-- C6, counterexample: with backup enabled and an unreadable source the
fixer does not return the failure indicator — the backup copy, taken
before the guarded read, raises an unhandled error. -/
theorem C6_counterexample :
    auto_fix_data Source.unreadable true = FixOutcome.crash
      ∧ auto_fix_data Source.unreadable true ≠ FixOutcome.failed :=
  ⟨rfl, fun h => FixOutcome.noConfusion h⟩

/-- C6, amended: a parse failure of a readable source returns the failure
indicator regardless of backup, and an unreadable source returns it only
when backup is disabled; with backup enabled the backup step crashes. -/
theorem C6_failure_result (b : Bool) :
    auto_fix_data Source.unparseable b = FixOutcome.failed
      ∧ auto_fix_data Source.unreadable false = FixOutcome.failed
      ∧ auto_fix_data Source.unreadable true = FixOutcome.crash := by
  cases b
  · exact ⟨rfl, rfl, rfl⟩
  · exact ⟨rfl, rfl, rfl⟩

/-- C7: the validator never fails on parsed data (only a read or parse
failure yields the failure result), a missing cinemas collection behaves
as an empty one, films with missing title, day or showtimes fields are
processed exactly as if the documented defaults were filled in, and a
cinema with a missing name is processed as if named "Unknown". -/
theorem C7_validator_lenient :
    (∀ data : Dict, validate_cinema_data (Source.parsed data) = VResult.report (validate data))
    ∧ (∀ src : Source, validate_cinema_data src = VResult.failure
        ↔ (src = Source.unreadable ∨ src = Source.unparseable))
    ∧ (∀ data : Dict, dget data "cinemas" = none →
        validate data = validate (dset data "cinemas" (JVal.arr [])))
    ∧ (∀ (name : String) (films : List Dict),
        validateFilms name (films.map canonFilm) = validateFilms name films
        ∧ statOf (films.map canonFilm) = statOf films)
    ∧ (∀ (acc : List Issue × List Warning × List (String × CStat)) (c : Dict),
        dget c "name" = none →
        cinemaStep acc (JVal.obj (dset c "name" (JVal.s "Unknown")))
          = cinemaStep acc (JVal.obj c)) := by
  refine ⟨fun data => rfl, ?_, validate_fill_cinemas,
    fun name films => ⟨validateFilms_map_canonFilm name films, statOf_map_canonFilm films⟩,
    cinemaStep_fill_name⟩
  intro src
  cases src with
  | unreadable => exact ⟨fun _ => Or.inl rfl, fun _ => rfl⟩
  | unparseable => exact ⟨fun _ => Or.inr rfl, fun _ => rfl⟩
  | parsed d =>
      constructor
      · intro h
        exact VResult.noConfusion h
      · rintro (h | h) <;> exact Source.noConfusion h

/-- C7, witness: the missing-cinemas and missing-name cases at concrete
empty records. -/
theorem C7_validator_lenient_witness :
    validate [] = validate (dset [] "cinemas" (JVal.arr []))
      ∧ cinemaStep ([], [], []) (JVal.obj (dset [] "name" (JVal.s "Unknown")))
          = cinemaStep ([], [], []) (JVal.obj []) :=
  ⟨C7_validator_lenient.2.2.1 [] rfl,
   C7_validator_lenient.2.2.2.2 ([], [], []) [] rfl⟩

/-- C8: the report lists are ordered as the spec describes — issues are
the concatenation over cinemas in input order of, per day key in
first-appearance order, the per-film rule 1 and 2 issues in film order,
then the day film-count issue, then the duplicate-title issue, with the
single global-ceiling issue last; warnings follow the same discipline for
rule 3 and the day film-count warning. -/
theorem C8_report_order (data : Dict) :
    (validate data).issues = issuesSpec data ∧ (validate data).warnings = warningsSpec data :=
  ⟨(validate_eq_spec data).1, (validate_eq_spec data).2.1⟩

/-- C9: the fixer preserves verbatim every field it does not touch — on a
kept film every field other than `showtimes` and `showtime_count`, on a
cinema every field other than `films`, and on the dataset every field
other than `cinemas`. -/
theorem C9_frame_preservation :
    (∀ (cinema_name : String) (film film' : Dict) (k : String),
        (fixFilm cinema_name film).1 = some film' →
        k ≠ "showtimes" → k ≠ "showtime_count" → dget film' k = dget film k)
    ∧ (∀ (cinema : Dict) (k : String), k ≠ "films" → dget (fixCinema cinema).1 k = dget cinema k)
    ∧ (∀ (data : Dict) (k : String), k ≠ "cinemas" → dget (fix_data data).1 k = dget data k) :=
  ⟨fun n f _ _ h h1 h2 => fixFilm_preserves n f h h1 h2,
   fun c _ h => alget_fixCinema_ne c h,
   fun d _ h => alget_fix_data_ne d h⟩

/-- C9, witness: preservation of a film title, a cinema name and an
untouched dataset key at concrete inputs. -/
theorem C9_frame_preservation_witness :
    dget (updFilm "C" dupFilm) "title" = dget dupFilm "title"
      ∧ dget (fixCinema [("name", JVal.s "C")]).1 "name" = dget [("name", JVal.s "C")] "name"
      ∧ dget (fix_data c2Data).1 "extra" = dget c2Data "extra" :=
  ⟨C9_frame_preservation.1 "C" dupFilm (updFilm "C" dupFilm) "title" rfl (by decide) (by decide),
   C9_frame_preservation.2.1 [("name", JVal.s "C")] "name" (by decide),
   C9_frame_preservation.2.2 c2Data "extra" (by decide)⟩

/-- C10: the fixer never removes, reorders or adds cinemas (the output
cinemas array is the input array with each entry transformed in place and
its name untouched), and within a cinema the kept films form a sublist of
the per-film-updated input films — films are only dropped, exactly when
their fixed showtime list is empty, never added or moved. -/
theorem C10_structure_preserved :
    (∀ data : Dict, getArr (fix_data data).1 "cinemas"
        = (getArr data "cinemas").map (fun cv => (fixCinemaVal cv).1))
    ∧ (∀ cinema : Dict, dget (fixCinema cinema).1 "name" = dget cinema "name")
    ∧ (∀ (cinema_name : String) (films : List Dict),
        ((fixFilms cinema_name films).1).Sublist (films.map (updFilm cinema_name)))
    ∧ (∀ (cinema_name : String) (film : Dict),
        (fixFilm cinema_name film).1 = none
          ↔ fixShowtimes cinema_name (getShowtimes film) = []) :=
  ⟨getArr_fix_data,
   fun c => alget_fixCinema_ne c (by decide),
   fixFilms_sublist,
   fun n f => fixFilm_none_iff n f⟩
